import Mathlib

/-!
Verification of the goset library (`set.go`): a thread-safe set backed by a
Go map, using the nil-pointer-means-empty convention.  A `*Set` is modelled
as an optional address (`Ptr`); the mutable store of all `Set` cells is an
explicit heap (`Heap`), so aliasing between receivers and arguments, retained
stale references, and in-place mutation are all represented faithfully.
Each Go method becomes a Lean function on `Heap × Ptr`; methods that mutate
return the new heap together with the returned pointer, exactly mirroring
the Go code paths.  The locking behaviour of the methods is modelled
separately by lock-event traces (`LockEvent`) over the per-cell `RWMutex`.
-/

set_option autoImplicit false
set_option linter.unusedSectionVars false
set_option linter.unusedVariables false

namespace Goset

/-- A `*Set` pointer: `none` is the Go `nil` set, `some i` is the address of
the cell holding the map `m` of that `Set` value. -/
abbrev Ptr := Option Nat

/-- The heap of allocated `Set` cells.  `next` is the next fresh address;
`store i` is the contents of the map of the cell at address `i` (a finite
set, since the Go map `map[interface{}]struct{}` is exactly a finite set of
keys). -/
structure Heap (α : Type) where
  next : Nat
  store : Nat → Finset α

variable {α : Type} [LinearOrder α]

/-- Overwrite the map of the cell at address `i`. -/
def Heap.set (h : Heap α) (i : Nat) (m : Finset α) : Heap α :=
  ⟨h.next, fun j => if j = i then m else h.store j⟩

/-- The map held by a pointer: the `nil` set holds the empty map. -/
def Heap.get (h : Heap α) : Ptr → Finset α
  | none => ∅
  | some i => h.store i

/-- A pointer is valid when it is `nil` or addresses an allocated cell. -/
def Heap.validB (h : Heap α) : Ptr → Bool
  | none => true
  | some i => decide (i < h.next)

/-- Computable enumeration of the keys of a map cell.  Go's map iteration
order is unspecified; the model fixes the sorted enumeration as one concrete
such order (every use of an enumeration in the library is
order-insensitive). -/
def sortedList (s : Finset α) : List α :=
  Quotient.lift (fun l => List.insertionSort (fun a b => a ≤ b) l)
    (fun l₁ l₂ (hp : l₁.Perm l₂) =>
      List.eq_of_perm_of_sorted
        ((List.perm_insertionSort _ l₁).trans
          (hp.trans (List.perm_insertionSort _ l₂).symm))
        (List.sorted_insertionSort _ l₁) (List.sorted_insertionSort _ l₂))
    s.val

/-- The loop `for _, item := range items { s.m[item] = keyexists }`. -/
def insertAll (m : Finset α) (items : List α) : Finset α :=
  items.foldl (fun acc x => insert x acc) m

/-- The loop `for _, item := range items { delete(s.m, item) }`. -/
def removeAll (m : Finset α) (items : List α) : Finset α :=
  items.foldl (fun acc x => acc.erase x) m

/-- `Set.Add`: returns the receiver unchanged on an empty argument list,
allocates a fresh cell when the receiver is `nil`, then inserts every item
into the receiver's map and returns the resulting `*Set`. -/
def Add (h : Heap α) (s : Ptr) (items : List α) : Heap α × Ptr :=
  if items = [] then (h, s)
  else
    match s with
    | none =>
      (⟨h.next + 1, fun j => if j = h.next then insertAll ∅ items else h.store j⟩,
        some h.next)
    | some i => (h.set i (insertAll (h.store i) items), some i)

/-- `New`: `return (*Set)(nil).Add(items...)`. -/
def New (h : Heap α) (items : List α) : Heap α × Ptr :=
  Add h none items

/-- `Set.Remove`: no-op on a `nil` receiver or an empty argument list;
otherwise deletes every item from the receiver's map in place and returns
`nil` when the map became empty, else the receiver. -/
def Remove (h : Heap α) (s : Ptr) (items : List α) : Heap α × Ptr :=
  match s with
  | none => (h, none)
  | some i =>
    if items = [] then (h, some i)
    else
      let m := removeAll (h.store i) items
      if m = ∅ then (h.set i m, none) else (h.set i m, some i)

/-- `Set.Has`: `false` on a `nil` receiver, `false` on an empty argument
list, otherwise whether every argument is a key of the receiver's map (the
Go loop breaks at the first missing item and returns the last lookup). -/
def Has (h : Heap α) (s : Ptr) (items : List α) : Bool :=
  match s with
  | none => false
  | some i =>
    if items = [] then false
    else items.all (fun x => decide (x ∈ h.store i))

/-- `Set.Size`: `0` on a `nil` receiver, else `len(s.m)`. -/
def Size (h : Heap α) (s : Ptr) : Nat :=
  match s with
  | none => 0
  | some i => (h.store i).card

/-- `Set.Clear`: `return nil` — the receiver's cell is not touched. -/
def Clear (h : Heap α) (_s : Ptr) : Heap α × Ptr :=
  (h, none)

/-- `Set.IsEmpty`: `return s == nil`. -/
def IsEmpty (s : Ptr) : Bool :=
  match s with
  | none => true
  | some _ => false

/-- `Set.List`: a snapshot slice of the keys of the receiver's map (empty on
a `nil` receiver). -/
def ListOp (h : Heap α) (s : Ptr) : List α :=
  match s with
  | none => []
  | some i => sortedList (h.store i)

/-- `Set.Copy`: `nil` for a `nil` receiver, else `New(s.List()...)`. -/
def Copy (h : Heap α) (s : Ptr) : Heap α × Ptr :=
  match s with
  | none => (h, none)
  | some i => New h (ListOp h (some i))

/-- `Set.IsEqual`: short-circuits when either side is `nil` or both are the
same pointer; otherwise equal sizes and every key of `t.m` present in
`s.m`. -/
def IsEqual (h : Heap α) (s t : Ptr) : Bool :=
  match s, t with
  | none, none => true
  | none, some _ => false
  | some _, none => false
  | some i, some j =>
    if i = j then true
    else
      decide ((h.store i).card = (h.store j).card) &&
        decide (∀ x ∈ h.store j, x ∈ h.store i)

/-- `Set.IsSubset`: the guard `s == nil || t == nil || s == t` returns
`s != nil || s == t`; otherwise every key of `t.m` is present in `s.m`. -/
def IsSubset (h : Heap α) (s t : Ptr) : Bool :=
  match s, t with
  | none, none => true
  | none, some _ => false
  | some _, none => true
  | some i, some j =>
    if i = j then true
    else decide (∀ x ∈ h.store j, x ∈ h.store i)

/-- `Set.IsSuperset`: `return t.IsSubset(s)`. -/
def IsSuperset (h : Heap α) (s t : Ptr) : Bool :=
  IsSubset h t s

/-- `Set.Merge`: `t.Copy()` on a `nil` receiver, the receiver unchanged on a
`nil` argument, otherwise inserts every key of `t.m` into `s.m` in place
and returns the receiver. -/
def Merge (h : Heap α) (s t : Ptr) : Heap α × Ptr :=
  match s with
  | none => Copy h t
  | some i =>
    match t with
    | none => (h, some i)
    | some j => (h.set i (insertAll (h.store i) (sortedList (h.store j))), some i)

/-- `Set.Union`: the Go branch structure — `nil` argument yields `nil` when
both sides are `nil` and `s.Copy()` otherwise; `nil` receiver yields
`t.Copy()`; otherwise `s.Copy().Merge(t)`. -/
def Union (h : Heap α) (s t : Ptr) : Heap α × Ptr :=
  if t = none then
    if s = none ∧ t = none then (h, none)
    else Copy h s
  else if s = none then Copy h t
  else
    let c := Copy h s
    Merge c.1 c.2 t

/-- `Set.Exclude`: `nil` on a `nil` receiver, the receiver on a `nil`
argument, otherwise `s.Remove(t.List()...)`. -/
def Exclude (h : Heap α) (s t : Ptr) : Heap α × Ptr :=
  match s with
  | none => (h, none)
  | some i =>
    match t with
    | none => (h, some i)
    | some _ => Remove h (some i) (ListOp h t)

/-- `Set.Difference`: `return s.Copy().Exclude(t)`. -/
def Difference (h : Heap α) (s t : Ptr) : Heap α × Ptr :=
  let c := Copy h s
  Exclude c.1 c.2 t

/-- `Set.Intersection`: `nil` if either side is `nil`, `s.Copy()` when both
sides are the same pointer, otherwise `c := s.Copy(); c.Exclude(c.Difference(t))`. -/
def Intersection (h : Heap α) (s t : Ptr) : Heap α × Ptr :=
  if s = none ∨ t = none then (h, none)
  else if s = t then Copy h s
  else
    let c := Copy h s
    let d := Difference c.1 c.2 t
    Exclude d.1 c.2 d.2

/-- `Set.SymmetricDifference`:
`cs := s.Copy(); ct := t.Copy(); return cs.Union(ct).Exclude(cs.Intersection(ct))`,
with Go's left-to-right evaluation of the two operand calls. -/
def SymmetricDifference (h : Heap α) (s t : Ptr) : Heap α × Ptr :=
  let cs := Copy h s
  let ct := Copy cs.1 t
  let u := Union ct.1 cs.2 ct.2
  let i := Intersection u.1 cs.2 ct.2
  Exclude i.1 u.2 i.2

/-! ### Basic lemmas about the heap and the loop primitives -/

@[simp]
theorem get_none (h : Heap α) : h.get none = ∅ := rfl

@[simp]
theorem get_some (h : Heap α) (i : Nat) : h.get (some i) = h.store i := rfl

@[simp]
theorem set_next (h : Heap α) (i : Nat) (m : Finset α) :
    (h.set i m).next = h.next := rfl

@[simp]
theorem store_set_same (h : Heap α) (i : Nat) (m : Finset α) :
    (h.set i m).store i = m := by
  simp [Heap.set]

theorem store_set_other (h : Heap α) (i j : Nat) (m : Finset α) (hne : j ≠ i) :
    (h.set i m).store j = h.store j := by
  simp [Heap.set, hne]

@[simp]
theorem validB_none (h : Heap α) : h.validB none = true := rfl

theorem validB_some (h : Heap α) (i : Nat) : h.validB (some i) = true ↔ i < h.next := by
  simp [Heap.validB]

theorem mem_sortedList {s : Finset α} {x : α} : x ∈ sortedList s ↔ x ∈ s := by
  rcases s with ⟨m, nd⟩
  induction m using Quotient.inductionOn with
  | h l =>
    show x ∈ List.insertionSort (fun a b => a ≤ b) l ↔ _
    rw [(List.perm_insertionSort (fun a b => a ≤ b) l).mem_iff]
    simp [Finset.mem_mk]

theorem toFinset_sortedList (s : Finset α) : (sortedList s).toFinset = s := by
  ext x
  simp [List.mem_toFinset, mem_sortedList]

theorem sortedList_eq_nil {s : Finset α} : sortedList s = [] ↔ s = ∅ := by
  rw [List.eq_nil_iff_forall_not_mem, Finset.eq_empty_iff_forall_not_mem]
  simp [mem_sortedList]

theorem insertAll_eq (m : Finset α) (l : List α) : insertAll m l = m ∪ l.toFinset := by
  induction l generalizing m with
  | nil => simp [insertAll]
  | cons x xs ih =>
    simp only [insertAll, List.foldl_cons] at ih ⊢
    rw [ih]
    ext a
    simp only [Finset.mem_union, Finset.mem_insert, List.toFinset_cons, List.mem_toFinset]
    tauto

theorem removeAll_eq (m : Finset α) (l : List α) : removeAll m l = m \ l.toFinset := by
  induction l generalizing m with
  | nil => simp [removeAll]
  | cons x xs ih =>
    simp only [removeAll, List.foldl_cons] at ih ⊢
    rw [ih]
    ext a
    simp only [Finset.mem_sdiff, Finset.mem_erase, List.toFinset_cons, List.mem_toFinset,
      List.mem_cons, Finset.mem_insert]
    tauto

theorem size_eq_card (h : Heap α) (s : Ptr) : Size h s = (h.get s).card := by
  cases s <;> simp [Size, Heap.get]

/-! ### Frame conditions: which cells an operation may touch

`framedExcept h h' p` says the step from heap `h` to heap `h'` left every
cell allocated in `h` unchanged, except possibly the cell addressed by `p`
(fresh cells, at addresses `≥ h.next`, are unconstrained). -/

def framedExcept (h h' : Heap α) (p : Ptr) : Prop :=
  h.next ≤ h'.next ∧ ∀ j, j < h.next → p ≠ some j → h'.store j = h.store j

/-- A pointer that is `nil` or was freshly allocated during a step from `h`. -/
def freshPtr (h : Heap α) (p : Ptr) : Prop :=
  ∀ j, p = some j → h.next ≤ j

theorem framed_refl (h : Heap α) (p : Ptr) : framedExcept h h p :=
  ⟨le_refl _, fun _ _ _ => rfl⟩

theorem framed_weaken {h h' : Heap α} (p : Ptr) (hf : framedExcept h h' none) :
    framedExcept h h' p :=
  ⟨hf.1, fun j hj _ => hf.2 j hj (by simp)⟩

theorem framed_none_trans {h h₁ h₂ : Heap α} (f₁ : framedExcept h h₁ none)
    (f₂ : framedExcept h₁ h₂ none) : framedExcept h h₂ none :=
  ⟨le_trans f₁.1 f₂.1, fun j hj hp => by
    rw [f₂.2 j (lt_of_lt_of_le hj f₁.1) hp, f₁.2 j hj hp]⟩

theorem framed_none_comp_fresh {h h₁ h₂ : Heap α} {p : Ptr}
    (f₁ : framedExcept h h₁ none) (f₂ : framedExcept h₁ h₂ p)
    (hp : freshPtr h p) : framedExcept h h₂ none := by
  refine ⟨le_trans f₁.1 f₂.1, fun j hj _ => ?_⟩
  have hpj : p ≠ some j := by
    intro hcon
    exact absurd hj (not_lt_of_le (hp j hcon))
  rw [f₂.2 j (lt_of_lt_of_le hj f₁.1) hpj, f₁.2 j hj (by simp)]

theorem get_framed {h h' : Heap α} {q p : Ptr} (hf : framedExcept h h' q)
    (hv : h.validB p = true) (hpq : ∀ j, p = some j → q ≠ some j) :
    h'.get p = h.get p := by
  cases p with
  | none => rfl
  | some j =>
    rw [validB_some] at hv
    exact hf.2 j hv (hpq j rfl)

theorem valid_mono {h h' : Heap α} {q p : Ptr} (hf : framedExcept h h' q)
    (hv : h.validB p = true) : h'.validB p = true := by
  cases p with
  | none => rfl
  | some j =>
    rw [validB_some] at hv ⊢
    exact lt_of_lt_of_le hv hf.1

/-! ### The representation invariant: `nil` iff empty -/

/-- The nil-means-empty representation invariant for a `*Set` value: the
pointer is `nil` exactly when its map holds no element. -/
def repInv (h : Heap α) (p : Ptr) : Prop :=
  p = none ↔ h.get p = ∅

instance (h : Heap α) (p : Ptr) : Decidable (repInv h p) :=
  inferInstanceAs (Decidable (p = none ↔ h.get p = ∅))

theorem repInv_none (h : Heap α) : repInv h none := by
  simp [repInv]

theorem repInv_of_get_eq {h h' : Heap α} {p : Ptr} (hg : h'.get p = h.get p)
    (hi : repInv h p) : repInv h' p := by
  rw [repInv, hg]
  exact hi

/-! ### Behaviour of `Add` -/

theorem add_get (h : Heap α) (s : Ptr) (l : List α) :
    (Add h s l).1.get (Add h s l).2 = h.get s ∪ l.toFinset := by
  by_cases hl : l = []
  · subst hl; simp [Add]
  · cases s with
    | none => simp [Add, hl, Heap.get, insertAll_eq]
    | some i => simp [Add, hl, Heap.get, insertAll_eq]

theorem add_framed (h : Heap α) (s : Ptr) (l : List α) :
    framedExcept h (Add h s l).1 s := by
  by_cases hl : l = []
  · subst hl; simpa [Add] using framed_refl h s
  · cases s with
    | none =>
      refine ⟨by simp [Add, hl], fun j hj _ => ?_⟩
      simp only [Add, if_neg hl]
      show (if j = h.next then insertAll ∅ l else h.store j) = h.store j
      exact if_neg (Nat.ne_of_lt hj)
    | some i =>
      refine ⟨by simp [Add, hl], fun j hj hne => ?_⟩
      simp only [Add, if_neg hl]
      exact store_set_other _ _ _ _ (fun hji => hne (by rw [hji]))

theorem add_valid (h : Heap α) (s : Ptr) (l : List α) (hv : h.validB s = true) :
    (Add h s l).1.validB (Add h s l).2 = true := by
  by_cases hl : l = []
  · subst hl; simpa [Add] using hv
  · cases s with
    | none => simp [Add, hl, Heap.validB]
    | some i =>
      rw [validB_some] at hv
      simp only [Add, if_neg hl]
      rw [validB_some]
      simpa using hv

theorem add_repInv (h : Heap α) (s : Ptr) (l : List α) (hi : repInv h s) :
    repInv (Add h s l).1 (Add h s l).2 := by
  by_cases hl : l = []
  · subst hl; simpa [Add] using hi
  · cases s with
    | none =>
      simp only [Add, if_neg hl]
      rw [repInv]
      simp [Heap.get, insertAll_eq, hl]
    | some i =>
      have hne : h.store i ≠ ∅ := by
        intro hcon
        have := hi.mpr (by simpa [Heap.get] using hcon)
        exact Option.noConfusion this
      simp only [Add, if_neg hl]
      rw [repInv]
      simp only [Heap.get, store_set_same, insertAll_eq]
      constructor
      · intro hcon; exact Option.noConfusion hcon
      · intro hcon
        rw [Finset.union_eq_empty] at hcon
        exact absurd hcon.1 hne

/-! ### Behaviour of `Remove` -/

theorem remove_get (h : Heap α) (s : Ptr) (l : List α) :
    (Remove h s l).1.get (Remove h s l).2 = h.get s \ l.toFinset := by
  cases s with
  | none => simp [Remove]
  | some i =>
    by_cases hl : l = []
    · subst hl; simp [Remove]
    · by_cases hm : removeAll (h.store i) l = ∅
      · simp only [Remove, if_neg hl, hm, if_pos rfl]
        rw [removeAll_eq] at hm
        simp [Heap.get, hm.symm]
      · simp only [Remove, if_neg hl, hm, if_neg hm]
        simp [Heap.get, removeAll_eq]

theorem remove_ptr (h : Heap α) (s : Ptr) (l : List α) :
    (Remove h s l).2 = s ∨ (Remove h s l).2 = none := by
  cases s with
  | none => right; rfl
  | some i =>
    by_cases hl : l = []
    · left; simp [Remove, hl]
    · by_cases hm : removeAll (h.store i) l = ∅
      · right; simp [Remove, hl, hm]
      · left; simp [Remove, hl, hm]

theorem remove_framed (h : Heap α) (s : Ptr) (l : List α) :
    framedExcept h (Remove h s l).1 s := by
  cases s with
  | none => exact framed_refl h none
  | some i =>
    by_cases hl : l = []
    · subst hl; simpa [Remove] using framed_refl h (some i)
    · have hset : ∀ m : Finset α, framedExcept h (h.set i m) (some i) := by
        intro m
        refine ⟨by simp, fun j hj hne => ?_⟩
        exact store_set_other _ _ _ _ (fun hji => hne (by rw [hji]))
      by_cases hm : removeAll (h.store i) l = ∅
      · simpa [Remove, hl, hm] using hset _
      · simpa [Remove, hl, hm] using hset _

theorem remove_valid (h : Heap α) (s : Ptr) (l : List α) (hv : h.validB s = true) :
    (Remove h s l).1.validB (Remove h s l).2 = true := by
  cases s with
  | none => rfl
  | some i =>
    by_cases hl : l = []
    · simpa [Remove, hl] using hv
    · rw [validB_some] at hv
      by_cases hm : removeAll (h.store i) l = ∅
      · simp [Remove, hl, hm]
      · have heq : Remove h (some i) l = (h.set i (removeAll (h.store i) l), some i) := by
          simp [Remove, hl, hm]
        rw [heq]
        show (h.set i (removeAll (h.store i) l)).validB (some i) = true
        rw [validB_some]
        simpa using hv

theorem remove_repInv (h : Heap α) (s : Ptr) (l : List α) (hi : repInv h s) :
    repInv (Remove h s l).1 (Remove h s l).2 := by
  cases s with
  | none => exact repInv_none h
  | some i =>
    by_cases hl : l = []
    · simpa [Remove, hl] using hi
    · by_cases hm : removeAll (h.store i) l = ∅
      · simp only [Remove, if_neg hl, hm, if_pos rfl]
        exact repInv_none _
      · have heq : Remove h (some i) l = (h.set i (removeAll (h.store i) l), some i) := by
          simp [Remove, hl, hm]
        rw [heq]
        show repInv (h.set i (removeAll (h.store i) l)) (some i)
        rw [repInv]
        simp only [Heap.get, store_set_same]
        constructor
        · intro hcon; exact Option.noConfusion hcon
        · intro hcon; exact absurd hcon hm

/-! ### Behaviour of `Copy` -/

theorem copy_get (h : Heap α) (s : Ptr) :
    (Copy h s).1.get (Copy h s).2 = h.get s := by
  cases s with
  | none => rfl
  | some i =>
    show (Add h none (ListOp h (some i))).1.get (Add h none (ListOp h (some i))).2 = _
    rw [add_get]
    simp [ListOp, toFinset_sortedList, Heap.get]

theorem copy_ptr (h : Heap α) (s : Ptr) :
    (Copy h s).2 = none ∨ (Copy h s).2 = some h.next := by
  cases s with
  | none => left; rfl
  | some i =>
    by_cases hl : ListOp h (some i) = []
    · left; simp [Copy, New, Add, hl]
    · right; simp [Copy, New, Add, hl]

theorem copy_fresh (h : Heap α) (s : Ptr) : freshPtr h (Copy h s).2 := by
  rcases copy_ptr h s with hp | hp <;> rw [hp]
  · intro j hj; exact Option.noConfusion hj
  · intro j hj
    cases hj
    exact le_refl _

theorem copy_framed (h : Heap α) (s : Ptr) :
    framedExcept h (Copy h s).1 none := by
  cases s with
  | none => exact framed_refl h none
  | some i => exact add_framed h none (ListOp h (some i))

theorem copy_valid (h : Heap α) (s : Ptr) :
    (Copy h s).1.validB (Copy h s).2 = true := by
  cases s with
  | none => rfl
  | some i => exact add_valid h none (ListOp h (some i)) rfl

theorem copy_repInv (h : Heap α) (s : Ptr) :
    repInv (Copy h s).1 (Copy h s).2 := by
  cases s with
  | none => exact repInv_none h
  | some i => exact add_repInv h none (ListOp h (some i)) (repInv_none h)

/-! ### Behaviour of `Merge` -/

theorem merge_get (h : Heap α) (s t : Ptr) :
    (Merge h s t).1.get (Merge h s t).2 = h.get s ∪ h.get t := by
  cases s with
  | none =>
    show (Copy h t).1.get (Copy h t).2 = _
    rw [copy_get]
    simp
  | some i =>
    cases t with
    | none => simp [Merge, Heap.get]
    | some j =>
      simp [Merge, Heap.get, insertAll_eq, toFinset_sortedList]

theorem merge_framed (h : Heap α) (s t : Ptr) :
    framedExcept h (Merge h s t).1 s := by
  cases s with
  | none => exact framed_weaken none (copy_framed h t)
  | some i =>
    cases t with
    | none => exact framed_refl h (some i)
    | some j =>
      refine ⟨by simp [Merge], fun k hk hne => ?_⟩
      simp only [Merge]
      exact store_set_other _ _ _ _ (fun hki => hne (by rw [hki]))

theorem merge_valid (h : Heap α) (s t : Ptr) (hv : h.validB s = true) :
    (Merge h s t).1.validB (Merge h s t).2 = true := by
  cases s with
  | none => exact copy_valid h t
  | some i =>
    cases t with
    | none => exact hv
    | some j =>
      rw [validB_some] at hv
      simp only [Merge]
      rw [validB_some]
      simpa using hv

theorem merge_repInv (h : Heap α) (s t : Ptr) (hi : repInv h s) :
    repInv (Merge h s t).1 (Merge h s t).2 := by
  cases s with
  | none => exact copy_repInv h t
  | some i =>
    cases t with
    | none => exact hi
    | some j =>
      have hne : h.store i ≠ ∅ := by
        intro hcon
        have := hi.mpr (by simpa [Heap.get] using hcon)
        exact Option.noConfusion this
      simp only [Merge]
      rw [repInv]
      simp only [Heap.get, store_set_same, insertAll_eq, toFinset_sortedList]
      constructor
      · intro hcon; exact Option.noConfusion hcon
      · intro hcon
        rw [Finset.union_eq_empty] at hcon
        exact absurd hcon.1 hne

theorem freshPtr_mono {h h₁ : Heap α} {p : Ptr} (hn : h.next ≤ h₁.next)
    (hp : freshPtr h₁ p) : freshPtr h p :=
  fun j hj => le_trans hn (hp j hj)

/-! ### Behaviour of `Union` -/

theorem union_none_none (h : Heap α) : Union h none none = (h, none) := by
  simp [Union]

theorem union_some_none (h : Heap α) (i : Nat) :
    Union h (some i) none = Copy h (some i) := by
  simp [Union]

theorem union_none_some (h : Heap α) (j : Nat) :
    Union h none (some j) = Copy h (some j) := by
  simp [Union]

theorem union_some_some (h : Heap α) (i j : Nat) :
    Union h (some i) (some j) =
      Merge (Copy h (some i)).1 (Copy h (some i)).2 (some j) := by
  simp [Union]

theorem union_get (h : Heap α) (s t : Ptr) (hvt : h.validB t = true) :
    (Union h s t).1.get (Union h s t).2 = h.get s ∪ h.get t := by
  cases t with
  | none =>
    cases s with
    | none => rw [union_none_none]; simp
    | some i => rw [union_some_none, copy_get]; simp
  | some j =>
    cases s with
    | none => rw [union_none_some, copy_get]; simp
    | some i =>
      rw [union_some_some, merge_get, copy_get,
        get_framed (copy_framed h (some i)) hvt (by simp)]

theorem union_framed (h : Heap α) (s t : Ptr) :
    framedExcept h (Union h s t).1 none := by
  cases t with
  | none =>
    cases s with
    | none => rw [union_none_none]; exact framed_refl h none
    | some i => rw [union_some_none]; exact copy_framed h (some i)
  | some j =>
    cases s with
    | none => rw [union_none_some]; exact copy_framed h (some j)
    | some i =>
      rw [union_some_some]
      exact framed_none_comp_fresh (copy_framed h (some i)) (merge_framed _ _ _)
        (copy_fresh h (some i))

theorem union_fresh (h : Heap α) (s t : Ptr) : freshPtr h (Union h s t).2 := by
  cases t with
  | none =>
    cases s with
    | none => rw [union_none_none]; intro k hk; exact Option.noConfusion hk
    | some i => rw [union_some_none]; exact copy_fresh h (some i)
  | some j =>
    cases s with
    | none => rw [union_none_some]; exact copy_fresh h (some j)
    | some i =>
      rw [union_some_some]
      rcases copy_ptr h (some i) with hp | hp <;> rw [hp]
      · show freshPtr h (Copy (Copy h (some i)).1 (some j)).2
        exact freshPtr_mono (copy_framed h (some i)).1 (copy_fresh _ _)
      · intro k hk
        simp only [Merge] at hk
        cases hk
        exact le_refl _

theorem union_valid (h : Heap α) (s t : Ptr) :
    (Union h s t).1.validB (Union h s t).2 = true := by
  cases t with
  | none =>
    cases s with
    | none => rw [union_none_none]; rfl
    | some i => rw [union_some_none]; exact copy_valid h (some i)
  | some j =>
    cases s with
    | none => rw [union_none_some]; exact copy_valid h (some j)
    | some i =>
      rw [union_some_some]
      exact merge_valid _ _ _ (copy_valid h (some i))

theorem union_repInv (h : Heap α) (s t : Ptr) :
    repInv (Union h s t).1 (Union h s t).2 := by
  cases t with
  | none =>
    cases s with
    | none => rw [union_none_none]; exact repInv_none h
    | some i => rw [union_some_none]; exact copy_repInv h (some i)
  | some j =>
    cases s with
    | none => rw [union_none_some]; exact copy_repInv h (some j)
    | some i =>
      rw [union_some_some]
      exact merge_repInv _ _ _ (copy_repInv h (some i))

/-! ### Behaviour of `Exclude` -/

theorem exclude_get (h : Heap α) (s t : Ptr) :
    (Exclude h s t).1.get (Exclude h s t).2 = h.get s \ h.get t := by
  cases s with
  | none => simp [Exclude]
  | some i =>
    cases t with
    | none => simp [Exclude, Heap.get]
    | some j =>
      show (Remove h (some i) (ListOp h (some j))).1.get
        (Remove h (some i) (ListOp h (some j))).2 = _
      rw [remove_get]
      simp [ListOp, toFinset_sortedList, Heap.get]

theorem exclude_ptr (h : Heap α) (s t : Ptr) :
    (Exclude h s t).2 = s ∨ (Exclude h s t).2 = none := by
  cases s with
  | none => right; rfl
  | some i =>
    cases t with
    | none => left; rfl
    | some j => exact remove_ptr h (some i) (ListOp h (some j))

theorem exclude_framed (h : Heap α) (s t : Ptr) :
    framedExcept h (Exclude h s t).1 s := by
  cases s with
  | none => exact framed_refl h none
  | some i =>
    cases t with
    | none => exact framed_refl h (some i)
    | some j => exact remove_framed h (some i) (ListOp h (some j))

theorem exclude_valid (h : Heap α) (s t : Ptr) (hv : h.validB s = true) :
    (Exclude h s t).1.validB (Exclude h s t).2 = true := by
  cases s with
  | none => rfl
  | some i =>
    cases t with
    | none => exact hv
    | some j => exact remove_valid h (some i) (ListOp h (some j)) hv

theorem exclude_repInv (h : Heap α) (s t : Ptr) (hi : repInv h s) :
    repInv (Exclude h s t).1 (Exclude h s t).2 := by
  cases s with
  | none => exact repInv_none h
  | some i =>
    cases t with
    | none => exact hi
    | some j => exact remove_repInv h (some i) (ListOp h (some j)) hi

/-! ### Behaviour of `Difference` -/

theorem difference_get (h : Heap α) (s t : Ptr) (hvt : h.validB t = true) :
    (Difference h s t).1.get (Difference h s t).2 = h.get s \ h.get t := by
  show (Exclude (Copy h s).1 (Copy h s).2 t).1.get
    (Exclude (Copy h s).1 (Copy h s).2 t).2 = _
  rw [exclude_get, copy_get, get_framed (copy_framed h s) hvt (by simp)]

theorem difference_framed (h : Heap α) (s t : Ptr) :
    framedExcept h (Difference h s t).1 none := by
  show framedExcept h (Exclude (Copy h s).1 (Copy h s).2 t).1 none
  exact framed_none_comp_fresh (copy_framed h s) (exclude_framed _ _ _)
    (copy_fresh h s)

theorem difference_fresh (h : Heap α) (s t : Ptr) :
    freshPtr h (Difference h s t).2 := by
  show freshPtr h (Exclude (Copy h s).1 (Copy h s).2 t).2
  rcases exclude_ptr (Copy h s).1 (Copy h s).2 t with hp | hp <;> rw [hp]
  · exact copy_fresh h s
  · intro k hk; exact Option.noConfusion hk

theorem difference_valid (h : Heap α) (s t : Ptr) :
    (Difference h s t).1.validB (Difference h s t).2 = true := by
  show (Exclude (Copy h s).1 (Copy h s).2 t).1.validB
    (Exclude (Copy h s).1 (Copy h s).2 t).2 = true
  exact exclude_valid _ _ _ (copy_valid h s)

theorem difference_repInv (h : Heap α) (s t : Ptr) :
    repInv (Difference h s t).1 (Difference h s t).2 := by
  show repInv (Exclude (Copy h s).1 (Copy h s).2 t).1
    (Exclude (Copy h s).1 (Copy h s).2 t).2
  exact exclude_repInv _ _ _ (copy_repInv h s)

/-! ### Behaviour of `Intersection` -/

theorem inter_of_none (h : Heap α) (s t : Ptr) (hn : s = none ∨ t = none) :
    Intersection h s t = (h, none) := by
  simp [Intersection, hn]

theorem inter_self (h : Heap α) (i : Nat) :
    Intersection h (some i) (some i) = Copy h (some i) := by
  simp [Intersection]

theorem inter_main (h : Heap α) (i j : Nat) (hij : i ≠ j) :
    Intersection h (some i) (some j) =
      Exclude (Difference (Copy h (some i)).1 (Copy h (some i)).2 (some j)).1
        (Copy h (some i)).2
        (Difference (Copy h (some i)).1 (Copy h (some i)).2 (some j)).2 := by
  simp [Intersection, hij]

theorem intersection_get (h : Heap α) (s t : Ptr) (hvt : h.validB t = true) :
    (Intersection h s t).1.get (Intersection h s t).2 = h.get s ∩ h.get t := by
  by_cases hn : s = none ∨ t = none
  · rw [inter_of_none h s t hn]
    rcases hn with hs | ht
    · subst hs; simp
    · subst ht; simp
  · push_neg at hn
    rcases s with _ | i
    · exact absurd rfl hn.1
    rcases t with _ | j
    · exact absurd rfl hn.2
    by_cases hij : i = j
    · subst hij
      rw [inter_self, copy_get]
      simp
    · rw [inter_main h i j hij]
      have f1 := copy_framed h (some i)
      have vc := copy_valid h (some i)
      have hvt1 : (Copy h (some i)).1.validB (some j) = true := valid_mono f1 hvt
      have gt1 : (Copy h (some i)).1.get (some j) = h.get (some j) :=
        get_framed f1 hvt (by simp)
      have gd := difference_get (Copy h (some i)).1 (Copy h (some i)).2 (some j) hvt1
      have f2 := difference_framed (Copy h (some i)).1 (Copy h (some i)).2 (some j)
      have gc2 : (Difference (Copy h (some i)).1 (Copy h (some i)).2 (some j)).1.get
          (Copy h (some i)).2 = (Copy h (some i)).1.get (Copy h (some i)).2 :=
        get_framed f2 vc (by simp)
      rw [exclude_get, gc2, copy_get, gd, copy_get, gt1]
      exact Finset.sdiff_sdiff_self_left _ _

theorem intersection_framed (h : Heap α) (s t : Ptr) :
    framedExcept h (Intersection h s t).1 none := by
  by_cases hn : s = none ∨ t = none
  · rw [inter_of_none h s t hn]; exact framed_refl h none
  · push_neg at hn
    rcases s with _ | i
    · exact absurd rfl hn.1
    rcases t with _ | j
    · exact absurd rfl hn.2
    by_cases hij : i = j
    · subst hij; rw [inter_self]; exact copy_framed h (some i)
    · rw [inter_main h i j hij]
      have f12 := framed_none_trans (copy_framed h (some i))
        (difference_framed (Copy h (some i)).1 (Copy h (some i)).2 (some j))
      exact framed_none_comp_fresh f12 (exclude_framed _ _ _)
        (copy_fresh h (some i))

theorem intersection_fresh (h : Heap α) (s t : Ptr) :
    freshPtr h (Intersection h s t).2 := by
  by_cases hn : s = none ∨ t = none
  · rw [inter_of_none h s t hn]; intro k hk; exact Option.noConfusion hk
  · push_neg at hn
    rcases s with _ | i
    · exact absurd rfl hn.1
    rcases t with _ | j
    · exact absurd rfl hn.2
    by_cases hij : i = j
    · subst hij; rw [inter_self]; exact copy_fresh h (some i)
    · rw [inter_main h i j hij]
      rcases exclude_ptr (Difference (Copy h (some i)).1 (Copy h (some i)).2 (some j)).1
        (Copy h (some i)).2
        (Difference (Copy h (some i)).1 (Copy h (some i)).2 (some j)).2 with hp | hp <;>
          rw [hp]
      · exact copy_fresh h (some i)
      · intro k hk; exact Option.noConfusion hk

theorem intersection_valid (h : Heap α) (s t : Ptr) :
    (Intersection h s t).1.validB (Intersection h s t).2 = true := by
  by_cases hn : s = none ∨ t = none
  · rw [inter_of_none h s t hn]; rfl
  · push_neg at hn
    rcases s with _ | i
    · exact absurd rfl hn.1
    rcases t with _ | j
    · exact absurd rfl hn.2
    by_cases hij : i = j
    · subst hij; rw [inter_self]; exact copy_valid h (some i)
    · rw [inter_main h i j hij]
      refine exclude_valid _ _ _ ?_
      exact valid_mono (difference_framed _ _ _) (copy_valid h (some i))

theorem intersection_repInv (h : Heap α) (s t : Ptr) :
    repInv (Intersection h s t).1 (Intersection h s t).2 := by
  by_cases hn : s = none ∨ t = none
  · rw [inter_of_none h s t hn]; exact repInv_none h
  · push_neg at hn
    rcases s with _ | i
    · exact absurd rfl hn.1
    rcases t with _ | j
    · exact absurd rfl hn.2
    by_cases hij : i = j
    · subst hij; rw [inter_self]; exact copy_repInv h (some i)
    · rw [inter_main h i j hij]
      refine exclude_repInv _ _ _ ?_
      refine repInv_of_get_eq ?_ (copy_repInv h (some i))
      exact get_framed (difference_framed _ _ _) (copy_valid h (some i)) (by simp)

/-! ### Behaviour of `SymmetricDifference` -/

theorem symmDiff_get (h : Heap α) (s t : Ptr) (hvt : h.validB t = true) :
    (SymmetricDifference h s t).1.get (SymmetricDifference h s t).2 =
      (h.get s ∪ h.get t) \ (h.get s ∩ h.get t) := by
  set cs := Copy h s with hcs
  set ct := Copy cs.1 t with hct
  set u := Union ct.1 cs.2 ct.2 with hu
  set i2 := Intersection u.1 cs.2 ct.2 with hi2
  have hres : SymmetricDifference h s t = Exclude i2.1 u.2 i2.2 := rfl
  have f1 : framedExcept h cs.1 none := copy_framed h s
  have vcs : cs.1.validB cs.2 = true := copy_valid h s
  have g1 : cs.1.get cs.2 = h.get s := copy_get h s
  have gt1 : cs.1.get t = h.get t := get_framed f1 hvt (by simp)
  have hvt1 : cs.1.validB t = true := valid_mono f1 hvt
  have f2 : framedExcept cs.1 ct.1 none := copy_framed cs.1 t
  have vct : ct.1.validB ct.2 = true := copy_valid cs.1 t
  have g2 : ct.1.get ct.2 = h.get t := by rw [hct, copy_get]; exact gt1
  have gcs2 : ct.1.get cs.2 = h.get s := by
    rw [get_framed f2 vcs (by simp)]; exact g1
  have vcs2 : ct.1.validB cs.2 = true := valid_mono f2 vcs
  have f3 : framedExcept ct.1 u.1 none := union_framed ct.1 cs.2 ct.2
  have vu : u.1.validB u.2 = true := union_valid ct.1 cs.2 ct.2
  have g3 : u.1.get u.2 = h.get s ∪ h.get t := by
    rw [hu, union_get ct.1 cs.2 ct.2 vct, gcs2, g2]
  have gcs3 : u.1.get cs.2 = h.get s := by
    rw [get_framed f3 vcs2 (by simp)]; exact gcs2
  have gct3 : u.1.get ct.2 = h.get t := by
    rw [get_framed f3 vct (by simp)]; exact g2
  have vcs3 : u.1.validB cs.2 = true := valid_mono f3 vcs2
  have vct3 : u.1.validB ct.2 = true := valid_mono f3 vct
  have f4 : framedExcept u.1 i2.1 none := intersection_framed u.1 cs.2 ct.2
  have g4 : i2.1.get i2.2 = h.get s ∩ h.get t := by
    rw [hi2, intersection_get u.1 cs.2 ct.2 vct3, gcs3, gct3]
  have gu4 : i2.1.get u.2 = h.get s ∪ h.get t := by
    rw [get_framed f4 vu (by simp)]; exact g3
  rw [hres, exclude_get, gu4, g4]

theorem symmDiff_framed (h : Heap α) (s t : Ptr) :
    framedExcept h (SymmetricDifference h s t).1 none := by
  set cs := Copy h s with hcs
  set ct := Copy cs.1 t with hct
  set u := Union ct.1 cs.2 ct.2 with hu
  set i2 := Intersection u.1 cs.2 ct.2 with hi2
  have hres : SymmetricDifference h s t = Exclude i2.1 u.2 i2.2 := rfl
  have f1 : framedExcept h cs.1 none := copy_framed h s
  have f2 : framedExcept cs.1 ct.1 none := copy_framed cs.1 t
  have f3 : framedExcept ct.1 u.1 none := union_framed ct.1 cs.2 ct.2
  have f4 : framedExcept u.1 i2.1 none := intersection_framed u.1 cs.2 ct.2
  have f14 : framedExcept h i2.1 none :=
    framed_none_trans (framed_none_trans (framed_none_trans f1 f2) f3) f4
  have hufresh : freshPtr h u.2 := by
    refine freshPtr_mono ?_ (union_fresh ct.1 cs.2 ct.2)
    exact le_trans f1.1 f2.1
  rw [hres]
  exact framed_none_comp_fresh f14 (exclude_framed _ _ _) hufresh

theorem symmDiff_valid (h : Heap α) (s t : Ptr) :
    (SymmetricDifference h s t).1.validB (SymmetricDifference h s t).2 = true := by
  set cs := Copy h s with hcs
  set ct := Copy cs.1 t with hct
  set u := Union ct.1 cs.2 ct.2 with hu
  set i2 := Intersection u.1 cs.2 ct.2 with hi2
  have hres : SymmetricDifference h s t = Exclude i2.1 u.2 i2.2 := rfl
  have vu : u.1.validB u.2 = true := union_valid ct.1 cs.2 ct.2
  have f4 : framedExcept u.1 i2.1 none := intersection_framed u.1 cs.2 ct.2
  rw [hres]
  exact exclude_valid _ _ _ (valid_mono f4 vu)

theorem symmDiff_repInv (h : Heap α) (s t : Ptr) :
    repInv (SymmetricDifference h s t).1 (SymmetricDifference h s t).2 := by
  set cs := Copy h s with hcs
  set ct := Copy cs.1 t with hct
  set u := Union ct.1 cs.2 ct.2 with hu
  set i2 := Intersection u.1 cs.2 ct.2 with hi2
  have hres : SymmetricDifference h s t = Exclude i2.1 u.2 i2.2 := rfl
  have vu : u.1.validB u.2 = true := union_valid ct.1 cs.2 ct.2
  have f4 : framedExcept u.1 i2.1 none := intersection_framed u.1 cs.2 ct.2
  have ru : repInv u.1 u.2 := union_repInv ct.1 cs.2 ct.2
  rw [hres]
  exact exclude_repInv _ _ _ (repInv_of_get_eq (get_framed f4 vu (by simp)) ru)

/-! ### Lock-acquisition traces

Each `Set` owns one `sync.RWMutex`.  The sequence of lock operations a
method performs on the per-cell mutexes is modelled as a list of
`LockEvent`s, mirroring the order of `Lock`/`RLock`/`RUnlock`/`Unlock`
calls in the Go code.  Go's `RWMutex` is not reentrant: a goroutine that
attempts an acquisition incompatible with a lock it already holds (any
acquisition while it holds the write lock, or a write acquisition while it
holds the read lock) blocks forever.  `selfDeadlock` detects exactly that
situation along a single goroutine's trace. -/

inductive LockMode : Type where
  | read : LockMode
  | write : LockMode
  deriving DecidableEq

inductive LockEvent : Type where
  | acq : Nat → LockMode → LockEvent
  | rel : Nat → LockMode → LockEvent
  deriving DecidableEq

/-- Whether acquiring the next event's lock blocks given the locks already
held by the same goroutine: some held lock is on the same mutex and one of
the two (the held one or the requested one) is a write lock. -/
def blocked (held : List (Nat × LockMode)) : LockEvent → Bool
  | LockEvent.acq i m =>
    decide (∃ e ∈ held, e.1 = i ∧ (e.2 = LockMode.write ∨ m = LockMode.write))
  | LockEvent.rel _ _ => false

/-- Runs a lock trace of a single goroutine, tracking the multiset of held
locks; returns `true` iff some acquisition blocks on a lock the goroutine
itself already holds incompatibly (a self-deadlock). -/
def selfDeadlock : List (Nat × LockMode) → List LockEvent → Bool
  | _, [] => false
  | held, e :: rest =>
    if blocked held e then true
    else
      match e with
      | LockEvent.acq i m => selfDeadlock ((i, m) :: held) rest
      | LockEvent.rel i m =>
        selfDeadlock (held.eraseP (fun x => x == (i, m))) rest

/-- Lock trace of `Set.List`: `RLock`/`RUnlock` on the receiver (nothing on
a `nil` receiver). -/
def listTrace (s : Ptr) : List LockEvent :=
  match s with
  | none => []
  | some i => [LockEvent.acq i LockMode.read, LockEvent.rel i LockMode.read]

/-- Lock trace of `Set.Add`: nothing on an empty argument list, else
`Lock`/`Unlock` on the (possibly freshly allocated) receiver cell. -/
def addTrace (h : Heap α) (s : Ptr) (items : List α) : List LockEvent :=
  if items = [] then []
  else
    match s with
    | none => [LockEvent.acq h.next LockMode.write, LockEvent.rel h.next LockMode.write]
    | some i => [LockEvent.acq i LockMode.write, LockEvent.rel i LockMode.write]

/-- Lock trace of `Set.Remove`: nothing on a `nil` receiver or empty
argument list, else `Lock`/`Unlock` on the receiver cell. -/
def removeTrace (s : Ptr) (items : List α) : List LockEvent :=
  match s with
  | none => []
  | some i =>
    if items = [] then []
    else [LockEvent.acq i LockMode.write, LockEvent.rel i LockMode.write]

/-- Lock trace of `Set.Copy` = `New(s.List()...)`: the `List` snapshot under
the receiver's read lock, then the `Add` into the fresh cell. -/
def copyTrace (h : Heap α) (s : Ptr) : List LockEvent :=
  match s with
  | none => []
  | some i => listTrace (some i) ++ addTrace h none (ListOp h (some i))

/-- Lock trace of `Set.Merge`: `s.l.Lock(); t.l.RLock(); ...; t.l.RUnlock();
s.l.Unlock()` — with no identity check between `s` and `t`. -/
def mergeTrace (h : Heap α) (s t : Ptr) : List LockEvent :=
  match s with
  | none => copyTrace h t
  | some i =>
    match t with
    | none => []
    | some j =>
      [LockEvent.acq i LockMode.write, LockEvent.acq j LockMode.read,
        LockEvent.rel j LockMode.read, LockEvent.rel i LockMode.write]

/-- Lock trace of `Set.IsEqual`: the guard `s == nil || t == nil || s == t`
returns before any lock is taken; otherwise both read locks are taken in
receiver-then-argument order. -/
def isEqualTrace (s t : Ptr) : List LockEvent :=
  match s, t with
  | some i, some j =>
    if i = j then []
    else
      [LockEvent.acq i LockMode.read, LockEvent.acq j LockMode.read,
        LockEvent.rel j LockMode.read, LockEvent.rel i LockMode.read]
  | _, _ => []

/-- Lock trace of `Set.Union`, following its branch structure:
`s.Copy().Merge(t)` in the general case. -/
def unionTrace (h : Heap α) (s t : Ptr) : List LockEvent :=
  if t = none then
    if s = none ∧ t = none then []
    else copyTrace h s
  else if s = none then copyTrace h t
  else copyTrace h s ++ mergeTrace (Copy h s).1 (Copy h s).2 t

/-- Lock trace of `Set.Exclude` = `s.Remove(t.List()...)`: the `List`
snapshot of `t` under its read lock, released before `Remove` write-locks
the receiver. -/
def excludeTrace (h : Heap α) (s t : Ptr) : List LockEvent :=
  match s with
  | none => []
  | some i =>
    match t with
    | none => []
    | some j => listTrace (some j) ++ removeTrace (some i) (ListOp h (some j))

/-! ### Concrete states used by witnesses and counterexamples -/

/-- The empty initial heap over natural-number elements. -/
def heap0 : Heap Nat := ⟨0, fun _ => ∅⟩

/-- The state `s := New(1)`: one allocated cell holding `{1}`. -/
def st1 : Heap Nat × Ptr := New heap0 [1]

/-- The state after `s.Remove(1)` on `st1`: the call returns `nil`, while
the retained pointer `st1.2` still addresses the now-emptied cell. -/
def st2 : Heap Nat × Ptr := Remove st1.1 st1.2 [1]

/-- The state `A := New(1, 2, 3)`. -/
def stA : Heap Nat × Ptr := New heap0 [1, 2, 3]

/-- The state `B := New(3, 4, 5)`, allocated after `A`. -/
def stB : Heap Nat × Ptr := New stA.1 [3, 4, 5]

/-! ### The claims -/

/-- Claim C1, counterexample: the pointer retained from `New(1)` after
`Remove(1)` was called on it is reachable through the public operations,
and on it `IsEmpty()` returns `false` (the pointer is not `nil`) while
`Size()` returns `0` (its cell was emptied in place), refuting the claimed
equivalence for such values. -/
theorem c1_counterexample :
    IsEmpty st1.2 = false ∧ st2.2 = none ∧ Size st2.1 st1.2 = 0 := by
  decide

/-- Claim C1 (amended): for every `*Set` value satisfying the nil-iff-empty
representation invariant — which holds for every value *returned* by the
public operations, but not for a reference retained across an emptying
`Remove` — `IsEmpty()` returns `true` iff `Size()` returns `0`. -/
theorem c1_isEmpty_iff_size_zero (h : Heap α) (s : Ptr) (hi : repInv h s) :
    IsEmpty s = true ↔ Size h s = 0 := by
  cases s with
  | none => simp [IsEmpty, Size]
  | some i =>
    constructor
    · intro hcon
      exact absurd hcon (by simp [IsEmpty])
    · intro hsz
      exfalso
      have hemp : h.store i = ∅ := Finset.card_eq_zero.mp (by simpa [Size] using hsz)
      have := hi.mpr (by simpa [Heap.get] using hemp)
      exact Option.noConfusion this

/-- Claim C1, witness for the amended theorem at the state `New(1)`. -/
theorem c1_witness :
    repInv st1.1 st1.2 ∧ (IsEmpty st1.2 = true ↔ Size st1.1 st1.2 = 0) :=
  ⟨by decide, c1_isEmpty_iff_size_zero st1.1 st1.2 (by decide)⟩

/-- Claim C2, counterexample: after `Clear()` on the state `New(1)` the
returned set is empty, but the receiver still contains the element `1` —
`Clear` is `return nil` and removes nothing from the receiver, refuting
"the receiver s itself no longer contains any of the elements it held". -/
theorem c2_counterexample :
    Size (Clear st1.1 st1.2).1 (Clear st1.1 st1.2).2 = 0 ∧
    Has (Clear st1.1 st1.2).1 st1.2 [1] = true := by
  decide

/-- Claim C2 (amended): `Clear()` returns the `nil` set, whose `Size()` is
`0`; it does not mutate the receiver — the heap is untouched, so the
receiver's membership is exactly what it was before the call. -/
theorem c2_clear_returns_empty (h : Heap α) (s : Ptr) :
    (Clear h s).2 = none ∧ Size (Clear h s).1 (Clear h s).2 = 0 ∧
    (Clear h s).1.get s = h.get s :=
  ⟨rfl, rfl, rfl⟩

/-- Claim C3: `s.IsEqual(s)` detects pointer identity and takes no lock at
all, but `s.Merge(s)` on a non-`nil` receiver performs no identity check:
its trace acquires the write lock and then the read lock of the *same*
`RWMutex`, which `selfDeadlock` flags — `s.Merge(s)` self-deadlocks,
refuting the claim for `Merge`.  (`s.Union(s)` and `s.Exclude(s)` only ever
lock two distinct cells or the same cell sequentially, as the two final
conjuncts show on the state `A := New(1,2,3)`.) -/
theorem c3_merge_self_deadlock (h : Heap α) (i : Nat) :
    isEqualTrace (some i) (some i) = [] ∧
    selfDeadlock [] (mergeTrace h (some i) (some i)) = true ∧
    selfDeadlock [] (unionTrace stA.1 stA.2 stA.2) = false ∧
    selfDeadlock [] (excludeTrace stA.1 stA.2 stA.2) = false := by
  refine ⟨by simp [isEqualTrace], ?_, by decide, by decide⟩
  have h1 : blocked ([] : List (Nat × LockMode)) (LockEvent.acq i LockMode.write)
      = false := rfl
  have h2 : blocked [(i, LockMode.write)] (LockEvent.acq i LockMode.read)
      = true := by
    simp [blocked]
  simp [mergeTrace, selfDeadlock, h1, h2]

/-- Claim C4: inclusion–exclusion for `Union` and `Intersection`:
`Union(A, B).Size() == A.Size() + B.Size() - Intersection(A, B).Size()`
for any two sets `A`, `B` of the heap (nil included, aliased included). -/
theorem c4_union_size (h : Heap α) (s t : Ptr)
    (hvs : h.validB s = true) (hvt : h.validB t = true) :
    (Size (Union h s t).1 (Union h s t).2 : ℤ) =
      (Size h s : ℤ) + (Size h t : ℤ) -
        (Size (Intersection h s t).1 (Intersection h s t).2 : ℤ) := by
  rw [size_eq_card, size_eq_card, size_eq_card, size_eq_card,
    union_get h s t hvt, intersection_get h s t hvt]
  have hc := Finset.card_union_add_card_inter (h.get s) (h.get t)
  omega

/-- Claim C4, witness at `A = New(1,2,3)`, `B = New(3,4,5)`. -/
theorem c4_witness :
    (stB.1.validB stA.2 = true ∧ stB.1.validB stB.2 = true) ∧
    (Size (Union stB.1 stA.2 stB.2).1 (Union stB.1 stA.2 stB.2).2 : ℤ) =
      (Size stB.1 stA.2 : ℤ) + (Size stB.1 stB.2 : ℤ) -
        (Size (Intersection stB.1 stA.2 stB.2).1
          (Intersection stB.1 stA.2 stB.2).2 : ℤ) :=
  ⟨⟨by decide, by decide⟩, c4_union_size stB.1 stA.2 stB.2 (by decide) (by decide)⟩

/-- Modelled from the spec: the reference definition of the symmetric
difference, `Union(A.Difference(B), B.Difference(A))` — the elements
present in exactly one of the two operands. -/
def symmetricDifferenceSpec (a b : Finset α) : Finset α :=
  (a \ b) ∪ (b \ a)

/-- Claim C5: `SymmetricDifference` has exactly the membership of the
reference definition `Union(A.Difference(B), B.Difference(A))`, and its
`Size()` equals `A.Difference(B).Size() + B.Difference(A).Size()`. -/
theorem c5_symmDiff_refines_spec (h : Heap α) (s t : Ptr)
    (hvs : h.validB s = true) (hvt : h.validB t = true) :
    (∀ x : α,
      x ∈ (SymmetricDifference h s t).1.get (SymmetricDifference h s t).2 ↔
        x ∈ symmetricDifferenceSpec (h.get s) (h.get t)) ∧
    Size (SymmetricDifference h s t).1 (SymmetricDifference h s t).2 =
      Size (Difference h s t).1 (Difference h s t).2 +
        Size (Difference h t s).1 (Difference h t s).2 := by
  have hmem : (SymmetricDifference h s t).1.get (SymmetricDifference h s t).2 =
      symmetricDifferenceSpec (h.get s) (h.get t) := by
    rw [symmDiff_get h s t hvt, symmetricDifferenceSpec]
    ext x
    simp only [Finset.mem_sdiff, Finset.mem_union, Finset.mem_inter]
    tauto
  refine ⟨fun x => by rw [hmem], ?_⟩
  rw [size_eq_card, size_eq_card, size_eq_card, hmem,
    difference_get h s t hvt, difference_get h t s hvs, symmetricDifferenceSpec]
  exact Finset.card_union_of_disjoint disjoint_sdiff_sdiff

/-- Claim C5, witness at `A = New(1,2,3)`, `B = New(3,4,5)`. -/
theorem c5_witness :
    (stB.1.validB stA.2 = true ∧ stB.1.validB stB.2 = true) ∧
    Size (SymmetricDifference stB.1 stA.2 stB.2).1
        (SymmetricDifference stB.1 stA.2 stB.2).2 =
      Size (Difference stB.1 stA.2 stB.2).1 (Difference stB.1 stA.2 stB.2).2 +
        Size (Difference stB.1 stB.2 stA.2).1 (Difference stB.1 stB.2 stA.2).2 :=
  ⟨⟨by decide, by decide⟩,
    (c5_symmDiff_refines_spec stB.1 stA.2 stB.2 (by decide) (by decide)).2⟩

/-- Claim C6: `Has()` with zero arguments returns `false` on every set, and
with one or more arguments returns `true` iff every listed item is a member
of the set (hence `false` for any arguments on a `nil`/empty set). -/
theorem c6_has_spec (h : Heap α) (s : Ptr) (items : List α) :
    Has h s [] = false ∧
    (items ≠ [] → (Has h s items = true ↔ ∀ x ∈ items, x ∈ h.get s)) := by
  constructor
  · cases s <;> simp [Has]
  · intro hne
    cases s with
    | none =>
      simp only [Has]
      constructor
      · intro hcon
        exact absurd hcon (by simp)
      · intro hall
        exfalso
        rcases items with _ | ⟨x, xs⟩
        · exact hne rfl
        · exact absurd (hall x (by simp)) (by simp [Heap.get])
    | some i =>
      simp [Has, hne, List.all_eq_true, Heap.get]

/-- Claim C6, witness at the state `New(1)` with argument list `[1]`. -/
theorem c6_witness :
    ([1] ≠ ([] : List Nat)) ∧
    (Has st1.1 st1.2 [1] = true ↔ ∀ x ∈ [1], x ∈ st1.1.get st1.2) :=
  ⟨by decide, (c6_has_spec st1.1 st1.2 [1]).2 (by decide)⟩

/-- Claim C7: with a `nil` second operand, `s.Union(nil)` returns a set
with exactly the membership of `s` (a copy), and `s.Merge(nil)` returns the
receiver itself with the heap — hence its membership — untouched. -/
theorem c7_nil_second_operand (h : Heap α) (s : Ptr) :
    (Union h s none).1.get (Union h s none).2 = h.get s ∧
    Merge h s none = (h, s) := by
  constructor
  · cases s with
    | none => rw [union_none_none]
    | some i => rw [union_some_none, copy_get]
  · cases s with
    | none => rfl
    | some i => rfl

/-- Claim C8: no failure modes for benign inputs — `Remove` of non-members
leaves `Size()` unchanged, `Add`/`Remove` with zero items return the
receiver with the heap untouched, and every read-style operation on the
`nil` receiver yields the well-defined empty/false/no-op result. -/
theorem c8_no_failure_modes (h : Heap α) (s t : Ptr) (items : List α) :
    ((∀ x ∈ items, x ∉ h.get s) →
      Size (Remove h s items).1 (Remove h s items).2 = Size h s) ∧
    Add h s [] = (h, s) ∧
    Remove h s [] = (h, s) ∧
    Has h none items = false ∧
    Size h none = 0 ∧
    IsEmpty (none : Ptr) = true ∧
    ListOp h none = [] ∧
    Copy h none = (h, none) ∧
    Clear h none = (h, none) ∧
    Remove h none items = (h, none) ∧
    Exclude h none t = (h, none) := by
  refine ⟨?_, by simp [Add], ?_, rfl, rfl, rfl, rfl, rfl, rfl, rfl, rfl⟩
  · intro hnm
    rw [size_eq_card, size_eq_card, remove_get]
    have hdisj : h.get s \ items.toFinset = h.get s := by
      rw [Finset.sdiff_eq_self_iff_disjoint, Finset.disjoint_right]
      intro a ha
      exact hnm a (List.mem_toFinset.mp ha)
    rw [hdisj]
  · cases s with
    | none => rfl
    | some i => rfl

/-- Claim C8, witness at the state `New(1)` removing the non-member `2`. -/
theorem c8_witness :
    (∀ x ∈ [2], x ∉ st1.1.get st1.2) ∧
    Size (Remove st1.1 st1.2 [2]).1 (Remove st1.1 st1.2 [2]).2 =
      Size st1.1 st1.2 :=
  ⟨by decide, (c8_no_failure_modes st1.1 st1.2 none [2]).1 (by decide)⟩

/-- Claim C9: provided the argument sets satisfy the nil-iff-empty
representation invariant, the value returned by each of `New`, `Add`,
`Remove`, `Clear`, `Copy`, `Union`, `Merge`, `Exclude`, `Intersection`,
`Difference` and `SymmetricDifference` satisfies it as well: the returned
pointer is `nil` exactly when it holds zero elements. -/
theorem c9_repInv_preserved (h : Heap α) (s t : Ptr) (items : List α)
    (hs : repInv h s) (ht : repInv h t) :
    repInv (New h items).1 (New h items).2 ∧
    repInv (Add h s items).1 (Add h s items).2 ∧
    repInv (Remove h s items).1 (Remove h s items).2 ∧
    repInv (Clear h s).1 (Clear h s).2 ∧
    repInv (Copy h s).1 (Copy h s).2 ∧
    repInv (Union h s t).1 (Union h s t).2 ∧
    repInv (Merge h s t).1 (Merge h s t).2 ∧
    repInv (Exclude h s t).1 (Exclude h s t).2 ∧
    repInv (Intersection h s t).1 (Intersection h s t).2 ∧
    repInv (Difference h s t).1 (Difference h s t).2 ∧
    repInv (SymmetricDifference h s t).1 (SymmetricDifference h s t).2 :=
  ⟨add_repInv h none items (repInv_none h), add_repInv h s items hs,
    remove_repInv h s items hs, repInv_none h, copy_repInv h s,
    union_repInv h s t, merge_repInv h s t hs, exclude_repInv h s t hs,
    intersection_repInv h s t, difference_repInv h s t, symmDiff_repInv h s t⟩

/-- Claim C9, witness at `A = New(1,2,3)`, `B = New(3,4,5)`. -/
theorem c9_witness :
    (repInv stB.1 stA.2 ∧ repInv stB.1 stB.2) ∧
    repInv (Union stB.1 stA.2 stB.2).1 (Union stB.1 stA.2 stB.2).2 :=
  ⟨⟨by decide, by decide⟩,
    (c9_repInv_preserved stB.1 stA.2 stB.2 [7] (by decide)
      (by decide)).2.2.2.2.2.1⟩

/-- Claim C10: no binary operation mutates its second operand.  For
distinct pointers `s ≠ t`, after each heap-returning binary operation the
membership of `t` in the resulting heap is exactly what it was before.
(`IsEqual`, `IsSubset` and `IsSuperset` are read-only — in the embedding
they return a `Bool` and no heap — so they cannot mutate `t` at all.) -/
theorem c10_second_operand_unchanged (h : Heap α) (s t : Ptr)
    (hst : s ≠ t) (hvs : h.validB s = true) (hvt : h.validB t = true) :
    (Union h s t).1.get t = h.get t ∧
    (Merge h s t).1.get t = h.get t ∧
    (Exclude h s t).1.get t = h.get t ∧
    (Intersection h s t).1.get t = h.get t ∧
    (Difference h s t).1.get t = h.get t ∧
    (SymmetricDifference h s t).1.get t = h.get t := by
  have hne : ∀ j, t = some j → s ≠ some j := by
    intro j hj hcon
    exact hst (by rw [hj, hcon])
  exact ⟨get_framed (union_framed h s t) hvt (by simp),
    get_framed (merge_framed h s t) hvt hne,
    get_framed (exclude_framed h s t) hvt hne,
    get_framed (intersection_framed h s t) hvt (by simp),
    get_framed (difference_framed h s t) hvt (by simp),
    get_framed (symmDiff_framed h s t) hvt (by simp)⟩

/-- Claim C10, witness at `A = New(1,2,3)`, `B = New(3,4,5)`: merging `B`
into `A` leaves `B` unchanged. -/
theorem c10_witness :
    (stA.2 ≠ stB.2 ∧ stB.1.validB stA.2 = true ∧ stB.1.validB stB.2 = true) ∧
    (Merge stB.1 stA.2 stB.2).1.get stB.2 = stB.1.get stB.2 :=
  ⟨⟨by decide, by decide, by decide⟩,
    (c10_second_operand_unchanged stB.1 stA.2 stB.2 (by decide) (by decide)
      (by decide)).2.1⟩

end Goset
